import Mathlib

/-!
Verification of the career_manager recommendation pipeline.

This file gives a shallow embedding of the pipeline code:
the response-repair parser of `app/api/recommendations/route.ts` and
`lib/azure-recommendations.ts` (trim, fence stripping, the array-extraction
regex, a strict JSON structural parse, and the array/object/primitive
dispatch), the route handler `POST`, the client-side service
`getRecommendations` of `lib/recommendation-service.ts`, the upload retry of
`components/discovery/resume-upload.tsx`, the file validation of the same
component, and the OCR page concatenation of `lib/resume-extractor.ts`.
External services (Supabase, the completion endpoint, the OCR endpoint,
object storage) are modelled as explicit environments recording their
outcomes, and the functions additionally report the externally observable
effects the properties speak about (number of completion calls, insert
attempts, upload attempts).
-/

namespace CareerManager

/-! ## JSON values and a strict structural parser (model of JSON.parse)

JavaScript values produced by JSON.parse.  Numbers are kept as their
lexeme, since no property depends on numeric value, only on the type tag.
-/

inductive Json where
  | null
  | bool (b : Bool)
  | num (lit : String)
  | str (s : String)
  | arr (items : List Json)
  | obj (fields : List (String × Json))

/-- ASCII whitespace as recognised by the JavaScript `\s` class and
`String.prototype.trim` (Unicode space classes are not exercised here). -/
def isWsChar (c : Char) : Bool :=
  c = ' ' || c = '\t' || c = '\n' || c = '\r' || c = '\x0b' || c = '\x0c'

/-- JSON insignificant whitespace (space, tab, newline, carriage return). -/
def isJsonWs (c : Char) : Bool :=
  c = ' ' || c = '\t' || c = '\n' || c = '\r'

def skipWsJ (l : List Char) : List Char := l.dropWhile isJsonWs

def isDigitCh (c : Char) : Bool := 47 < c.toNat && c.toNat < 58

/-- Value of a hexadecimal digit character (code points compared
numerically: 0-9, lowercase a-f, uppercase A-F). -/
def hexVal (c : Char) : Option Nat :=
  let n := c.toNat
  if 48 ≤ n && n ≤ 57 then some (n - 48)
  else if 97 ≤ n && n ≤ 102 then some (n - 87)
  else if 65 ≤ n && n ≤ 70 then some (n - 55)
  else none

/-- Single-character escape sequences of JSON strings. -/
def escChar (c : Char) : Option Char :=
  if c = '"' then some '"'
  else if c = '\\' then some '\\'
  else if c = '/' then some '/'
  else if c = 'b' then some '\x08'
  else if c = 'f' then some '\x0c'
  else if c = 'n' then some '\n'
  else if c = 'r' then some '\r'
  else if c = 't' then some '\t'
  else none

/-- Body of a JSON string after the opening quote; returns the decoded
string and the input remaining after the closing quote. -/
def parseStringAux : List Char → List Char → Option (String × List Char)
  | _, [] => none
  | acc, c :: rest =>
    if c = '"' then some (⟨acc.reverse⟩, rest)
    else if c = '\\' then
      match rest with
      | [] => none
      | e :: rest2 =>
        if e = 'u' then
          match rest2 with
          | h1 :: h2 :: h3 :: h4 :: rest3 =>
            match hexVal h1, hexVal h2, hexVal h3, hexVal h4 with
            | some a, some b, some c2, some d =>
              parseStringAux (Char.ofNat (((a * 16 + b) * 16 + c2) * 16 + d) :: acc) rest3
            | _, _, _, _ => none
          | _ => none
        else
          match escChar e with
          | some ec => parseStringAux (ec :: acc) rest2
          | none => none
    else parseStringAux (c :: acc) rest

/-- Integer part of a JSON number: a single 0, or a nonzero digit followed
by digits. -/
def parseIntPart : List Char → Option (List Char × List Char)
  | [] => none
  | c :: rest =>
    if c = '0' then some ([c], rest)
    else if isDigitCh c && c ≠ '0' then
      some (c :: rest.takeWhile isDigitCh, rest.dropWhile isDigitCh)
    else none

/-- Optional fraction part: a dot followed by one or more digits. -/
def parseFracPart (l : List Char) : Option (List Char × List Char) :=
  match l with
  | '.' :: rest =>
    match rest.takeWhile isDigitCh with
    | [] => none
    | ds => some ('.' :: ds, rest.dropWhile isDigitCh)
  | _ => some ([], l)

/-- Optional exponent part: e or E, optional sign, one or more digits. -/
def parseExpPart (l : List Char) : Option (List Char × List Char) :=
  match l with
  | e :: rest =>
    if e = 'e' || e = 'E' then
      let (sgn, rest2) :=
        match rest with
        | s :: r2 => if s = '+' || s = '-' then ([s], r2) else ([], rest)
        | [] => ([], rest)
      match rest2.takeWhile isDigitCh with
      | [] => none
      | ds => some (e :: (sgn ++ ds), rest2.dropWhile isDigitCh)
    else some ([], l)
  | [] => some ([], l)

/-- Lexes a JSON number, returning its lexeme and the rest of the input. -/
def parseNumberLex (l : List Char) : Option (String × List Char) :=
  let (sgn, l1) :=
    match l with
    | '-' :: rest => (['-'], rest)
    | _ => ([], l)
  match parseIntPart l1 with
  | none => none
  | some (ip, l2) =>
    match parseFracPart l2 with
    | none => none
    | some (fp, l3) =>
      match parseExpPart l3 with
      | none => none
      | some (ep, l4) => some (⟨sgn ++ ip ++ fp ++ ep⟩, l4)

mutual

/-- Strict recursive-descent JSON value parser, fuelled. -/
def parseValue : Nat → List Char → Option (Json × List Char)
  | 0, _ => none
  | fuel + 1, l =>
    match skipWsJ l with
    | 'n' :: 'u' :: 'l' :: 'l' :: rest => some (.null, rest)
    | 't' :: 'r' :: 'u' :: 'e' :: rest => some (.bool true, rest)
    | 'f' :: 'a' :: 'l' :: 's' :: 'e' :: rest => some (.bool false, rest)
    | '"' :: rest =>
      match parseStringAux [] rest with
      | some (s, r) => some (.str s, r)
      | none => none
    | '[' :: rest =>
      match parseArrayItems fuel (skipWsJ rest) with
      | some (xs, r) => some (.arr xs, r)
      | none => none
    | '\x7b' :: rest =>
      match parseObjMembers fuel (skipWsJ rest) with
      | some (fs, r) => some (.obj fs, r)
      | none => none
    | l2 =>
      match parseNumberLex l2 with
      | some (s, r) => some (.num s, r)
      | none => none

/-- Items of an array, positioned after the opening bracket (whitespace
already skipped). -/
def parseArrayItems : Nat → List Char → Option (List Json × List Char)
  | 0, _ => none
  | fuel + 1, l =>
    match l with
    | ']' :: rest => some ([], rest)
    | _ =>
      match parseValue fuel l with
      | some (v, r) =>
        match parseArrayTail fuel (skipWsJ r) with
        | some (vs, r2) => some (v :: vs, r2)
        | none => none
      | none => none

/-- Continuation of an array after one item: a comma and another item, or
the closing bracket. -/
def parseArrayTail : Nat → List Char → Option (List Json × List Char)
  | 0, _ => none
  | fuel + 1, l =>
    match l with
    | ']' :: rest => some ([], rest)
    | ',' :: r =>
      match parseValue fuel r with
      | some (v, r2) =>
        match parseArrayTail fuel (skipWsJ r2) with
        | some (vs, r3) => some (v :: vs, r3)
        | none => none
      | none => none
    | _ => none

/-- Members of an object, positioned after the opening brace (whitespace
already skipped). -/
def parseObjMembers : Nat → List Char → Option (List (String × Json) × List Char)
  | 0, _ => none
  | fuel + 1, l =>
    match l with
    | '\x7d' :: rest => some ([], rest)
    | _ =>
      match parseMember fuel l with
      | some (kv, r) =>
        match parseObjTail fuel (skipWsJ r) with
        | some (kvs, r2) => some (kv :: kvs, r2)
        | none => none
      | none => none

/-- One key-value member: a string key, a colon, a value. -/
def parseMember : Nat → List Char → Option ((String × Json) × List Char)
  | 0, _ => none
  | fuel + 1, l =>
    match l with
    | '"' :: rest =>
      match parseStringAux [] rest with
      | some (k, r) =>
        match skipWsJ r with
        | ':' :: r2 =>
          match parseValue fuel r2 with
          | some (v, r3) => some ((k, v), r3)
          | none => none
        | _ => none
      | none => none
    | _ => none

/-- Continuation of an object after one member: a comma and another member,
or the closing brace. -/
def parseObjTail : Nat → List Char → Option (List (String × Json) × List Char)
  | 0, _ => none
  | fuel + 1, l =>
    match l with
    | '\x7d' :: rest => some ([], rest)
    | ',' :: r =>
      match parseMember fuel (skipWsJ r) with
      | some (kv, r2) =>
        match parseObjTail fuel (skipWsJ r2) with
        | some (kvs, r3) => some (kv :: kvs, r3)
        | none => none
      | none => none
    | _ => none

end

/-- Model of `JSON.parse`: parse a single value and require that only
whitespace remains.  The fuel bound is generous: every unit of fuel spent
descending corresponds to at least one character of input consumed, except
for at most one hand-off per alternation, so twice the length plus two
always suffices. -/
def jsonParse (s : String) : Option Json :=
  match parseValue (2 * s.length + 2) s.data with
  | some (v, rest) => if (skipWsJ rest).isEmpty then some v else none
  | none => none

/-! ## The response repair steps of the route handler

These model, line for line, the cleanup applied to the raw completion text
in `route.ts` (and identically in `azure-recommendations.ts`):
trim, conditional code-fence stripping via two `replace` calls, and the
array extraction regex match. -/

/-- Model of `String.prototype.trim` (ASCII whitespace). -/
def jsTrim (l : List Char) : List Char :=
  ((l.dropWhile isWsChar).reverse.dropWhile isWsChar).reverse

/-- Removes the first occurrence of `pat` anywhere in the string, as the
un-anchored single `replace` call does. -/
def removeFirstOcc (pat : List Char) : List Char → List Char
  | [] => []
  | c :: rest =>
    if pat.isPrefixOf (c :: rest) then (c :: rest).drop pat.length
    else c :: removeFirstOcc pat rest

/-- Removes `pat` when it is a suffix, as the end-anchored `replace` call
does. -/
def removeSuffixIf (pat l : List Char) : List Char :=
  if pat.isSuffixOf l then l.take (l.length - pat.length) else l

/-- Model of the two fence-stripping branches guarded by `startsWith`. -/
def stripFences (l : List Char) : List Char :=
  if ("```json".data).isPrefixOf l then
    removeSuffixIf ("\n```".data) (removeFirstOcc ("```json\n".data) l)
  else if ("```".data).isPrefixOf l then
    removeSuffixIf ("\n```".data) (removeFirstOcc ("```\n".data) l)
  else l

/-- After a closing brace, the pattern whitespace-then-right-bracket;
returns the number of characters consumed, the bracket included. -/
def wsThenClose : List Char → Option Nat
  | [] => none
  | c :: rest =>
    if c = ']' then some 1
    else if isWsChar c then (wsThenClose rest).map (· + 1)
    else none

/-- End offset (exclusive) of the rightmost close pattern (a closing brace,
whitespace, a right bracket) in `t`.  This is where the greedy middle of
the extraction regex stops backtracking. -/
def lastCloseEnd : List Char → Option Nat
  | [] => none
  | c :: rest =>
    match lastCloseEnd rest with
    | some e => some (e + 1)
    | none => if c = '\x7d' then (wsThenClose rest).map (· + 1) else none

/-- After a left bracket, the pattern whitespace-then-opening-brace;
returns the number of characters consumed, the brace included. -/
def wsThenBrace : List Char → Option Nat
  | [] => none
  | c :: rest =>
    if c = '\x7b' then some 1
    else if isWsChar c then (wsThenBrace rest).map (· + 1)
    else none

/-- Length of the match of the array-extraction regex anchored at the head
of `l`, if the whole pattern can match there. -/
def matchLenAt : List Char → Option Nat
  | [] => none
  | c :: rest =>
    if c = '[' then
      match wsThenBrace rest with
      | some b =>
        match lastCloseEnd (rest.drop b) with
        | some e => some (1 + b + e)
        | none => none
      | none => none
    else none

/-- Leftmost match of the array-extraction regex over the whole input,
returned as the matched span, as `String.prototype.match` reports it. -/
def findArrayMatch : List Char → Option (List Char)
  | [] => none
  | c :: rest =>
    match matchLenAt (c :: rest) with
    | some n => some ((c :: rest).take n)
    | none => findArrayMatch rest

/-- Whether a close pattern (closing brace, whitespace, right bracket)
occurs anywhere in `t`. -/
def hasClose : List Char → Bool
  | [] => false
  | c :: rest => (c = '\x7d' && (wsThenClose rest).isSome) || hasClose rest

/-- The full repair chain applied to the raw completion text before the
structural parse: trim, strip fences, and if the extraction regex matches,
keep only the matched span. -/
def repairChars (l : List Char) : List Char :=
  let t := stripFences (jsTrim l)
  match findArrayMatch t with
  | some m => m
  | none => t

def repairStr (s : String) : String := ⟨repairChars s.data⟩

/-- The parse stage of the route handler, from the raw completion text to
either the accepted list of records or the caught-error path.  An error
carries the original raw text (it is what the handler logs).  After a
successful structural parse the handler wraps any non-array whose
JavaScript `typeof` is the string "object" into a one-element array: that
covers objects and also `null`, and throws (into the same catch) for
numbers, strings and booleans. -/
def parseRecs (raw : String) : Except String (List Json) :=
  match jsonParse (repairStr raw) with
  | none => .error raw
  | some (.arr xs) => .ok xs
  | some (.obj fs) => .ok [.obj fs]
  | some .null => .ok [.null]
  | some _ => .error raw

/-! ## Records and the static default recommendation set -/

/-- The typed recommendation record of `lib/azure-recommendations.ts`. -/
structure RoleRecommendation where
  role_title : String
  description : String
  why_it_fits_professionally : String
  why_it_fits_personally : String
deriving DecidableEq, Repr

/-- The process-wide fallback set `defaultRecommendations` of
`lib/azure-recommendations.ts`, verbatim. -/
def defaultRecommendations : List RoleRecommendation :=
  [ { role_title := "Software Developer",
      description := "Software developers create applications and systems that run on computers and other devices. They design, code, test, and maintain software solutions for various problems and needs.",
      why_it_fits_professionally := "Your technical skills and problem-solving abilities would make you a strong candidate for software development roles. Your experience with analytical thinking aligns well with the core competencies needed.",
      why_it_fits_personally := "Your interest in creating solutions and solving complex problems makes software development a fulfilling career path that matches your personal interests." },
    { role_title := "Data Analyst",
      description := "Data analysts examine datasets to identify trends and draw conclusions. They present findings to help organizations make better business decisions.",
      why_it_fits_professionally := "Your analytical thinking skills and attention to detail would serve you well as a data analyst. This role leverages your abilities to find patterns and insights in complex information.",
      why_it_fits_personally := "Your curiosity and interest in uncovering insights from information makes data analysis a personally satisfying career that aligns with your values." },
    { role_title := "Product Manager",
      description := "Product managers oversee the development of products from conception to launch. They define product strategy, gather requirements, and coordinate with different teams to ensure successful delivery.",
      why_it_fits_professionally := "Your combination of technical understanding and strategic planning abilities makes product management a good professional fit. This role utilizes both your analytical and communication skills.",
      why_it_fits_personally := "Your interest in both the business and technical aspects of products, along with your desire to create meaningful solutions, aligns well with product management." } ]

/-- A typed record serialised to the JSON object the route responds with. -/
def recToJson (r : RoleRecommendation) : Json :=
  .obj [ ("role_title", .str r.role_title),
         ("description", .str r.description),
         ("why_it_fits_professionally", .str r.why_it_fits_professionally),
         ("why_it_fits_personally", .str r.why_it_fits_personally) ]

/-- The default set as the route serialises it. -/
def defaultRecommendationsJson : List Json :=
  defaultRecommendations.map recToJson

/-- Looks up a field of a JSON object by key, first occurrence. -/
def jsonField (fs : List (String × Json)) (k : String) : Option Json :=
  (fs.find? (fun kv => kv.1 = k)).map (fun kv => kv.2)

/-- Whether a parsed record carries the named field with a string value. -/
def hasStrField (r : Json) (k : String) : Bool :=
  match r with
  | .obj fs =>
    match jsonField fs k with
    | some (.str _) => true
    | _ => false
  | _ => false

/-- Whether a parsed record has all four contract fields, each a string. -/
def hasAllRecordFields (r : Json) : Bool :=
  hasStrField r "role_title" && hasStrField r "description" &&
    hasStrField r "why_it_fits_professionally" && hasStrField r "why_it_fits_personally"

/-- One tag category of the discovery data, as stored on the profile. -/
structure SelectionData where
  selected : List String
  additional_info : String
deriving DecidableEq, Repr

/-- The discovery data object nested in the profile row.  `none` at the
profile level models a null or absent `discovery_data` column, which is
what the handler's truthiness test observes. -/
structure DiscoveryData where
  skills : SelectionData
  interests : SelectionData
  values : SelectionData
deriving DecidableEq, Repr

/-- The profile columns the handler selects. -/
structure ProfileRow where
  discovery_data : Option DiscoveryData
  resume_link : Option String
deriving DecidableEq, Repr

/-- The completion response body text (`choices[0].message.content`). -/
structure CompletionBody where
  content : String
deriving DecidableEq, Repr

/-- Outcomes of the external calls a single route invocation makes. -/
structure RouteEnv where
  /-- The profile fetch: an error object, or the selected columns. -/
  profile : Except String ProfileRow
  /-- The resume extraction outcome for a given url (`extractResumeText`
  either resolves with the text or throws). -/
  extract : String → Except String String
  /-- The completion call: a thrown error, a response without a body, or a
  response body. -/
  completion : Except String (Option CompletionBody)
  /-- Per-record insert outcomes (an error value or success); resolved
  values that the handler never inspects. -/
  insertResult : Nat → Option String

/-- The request body fields the handler reads.  `none` models an absent
field; JavaScript truthiness also treats the empty string as missing. -/
structure RouteRequest where
  userId : Option String
  resumeUrl : Option String
deriving DecidableEq, Repr

/-- JavaScript truthiness of an optional string. -/
def optFalsy : Option String → Bool
  | none => true
  | some s => s = ""

/-- The response payloads the handler can produce. -/
inductive ApiResponse where
  | ok (recommendations : List Json)
  | badRequest (error : String)
  | serverError (error : String) (recommendations : List Json)

/-- The observable outcome of one route invocation: the response, how many
completion-endpoint calls were made, and the records for which an insert
was attempted, in order. -/
structure RouteOutcome where
  response : ApiResponse
  completionCalls : Nat
  insertAttempts : List Json

/-- The discovery data the handler works with: on a profile fetch error it
continues with the null default. -/
def fetchedDiscovery (env : RouteEnv) : Option DiscoveryData :=
  match env.profile with
  | .error _ => none
  | .ok p => p.discovery_data

/-- The resume url after the profile merge: the request parameter, or the
stored link when the parameter is missing and the stored link is truthy. -/
def effectiveResumeUrl (req : RouteRequest) (env : RouteEnv) : Option String :=
  match env.profile with
  | .error _ => req.resumeUrl
  | .ok p =>
    if optFalsy req.resumeUrl && !optFalsy p.resume_link then p.resume_link
    else req.resumeUrl

/-- The resume text after the extraction stage: empty without a truthy
url, and empty again when the extraction call throws. -/
def extractedResumeText (req : RouteRequest) (env : RouteEnv) : String :=
  match effectiveResumeUrl req env with
  | none => ""
  | some u =>
    if u = "" then ""
    else
      match env.extract u with
      | .ok t => t
      | .error _ => ""

/-- The records the insert loop reaches: each record in order until the
first null record, whose field access throws before its insert call. -/
def insertAttemptsOf : List Json → List Json
  | [] => []
  | .null :: _ => []
  | r :: rest => r :: insertAttemptsOf rest

/-- Whether the insert loop throws a TypeError on some record of the
batch, i.e. whether the batch contains a null record. -/
def batchThrows : List Json → Bool
  | [] => false
  | .null :: _ => true
  | _ :: rest => batchThrows rest

/-- The route handler, stage for stage: userId precondition, profile
fetch, extraction, the no-signal short circuit, the completion call, the
repair parse, and the insert loop.  A TypeError in the loop (a null
record) lands in the same catch as a parse failure: the defaults are
returned and the remaining inserts are abandoned. -/
def POST (req : RouteRequest) (env : RouteEnv) : RouteOutcome :=
  if optFalsy req.userId then
    ⟨.badRequest "Missing userId in request", 0, []⟩
  else
    let discoveryData := fetchedDiscovery env
    let resumeText := extractedResumeText req env
    if discoveryData.isNone && resumeText = "" then
      ⟨.ok defaultRecommendationsJson, 0, []⟩
    else
      match env.completion with
      | .error _ => ⟨.ok defaultRecommendationsJson, 1, []⟩
      | .ok none => ⟨.ok defaultRecommendationsJson, 1, []⟩
      | .ok (some body) =>
        match parseRecs body.content with
        | .error _ => ⟨.ok defaultRecommendationsJson, 1, []⟩
        | .ok recs =>
          if batchThrows recs then
            ⟨.ok defaultRecommendationsJson, 1, insertAttemptsOf recs⟩
          else ⟨.ok recs, 1, insertAttemptsOf recs⟩

/-! ## The client-side service `getRecommendations` of
`lib/recommendation-service.ts`

The store is modelled as the table of persisted rows; the cache query is
the Supabase contract: rows of the user, ordered by creation descending,
limited to three. -/

/-- A persisted `role_recommendations` row. -/
structure StoredRec where
  user_id : String
  role_title : String
  description : String
  why_it_fits_professionally : String
  why_it_fits_personally : String
  created_at : Nat
deriving DecidableEq, Repr

/-- Insertion into a list kept descending by `created_at`. -/
def insertDesc (r : StoredRec) : List StoredRec → List StoredRec
  | [] => [r]
  | x :: xs =>
    if x.created_at ≤ r.created_at then r :: x :: xs
    else x :: insertDesc r xs

/-- Sorts rows by `created_at` descending (the `order` clause). -/
def sortByCreatedDesc (l : List StoredRec) : List StoredRec :=
  l.foldr insertDesc []

/-- The cache query: the user's rows, most recent first, at most three
(the `eq`, `order` and `limit` clauses). -/
def queryTop3 (table : List StoredRec) (uid : String) : List StoredRec :=
  (sortByCreatedDesc (table.filter (fun r => r.user_id = uid))).take 3

/-- Projection of a stored row onto the four record fields, as the service
maps query results. -/
def toRecommendation (r : StoredRec) : RoleRecommendation :=
  ⟨r.role_title, r.description, r.why_it_fits_professionally, r.why_it_fits_personally⟩

/-- Outcomes of the external calls the service makes. -/
structure ServiceEnv where
  /-- All persisted recommendation rows. -/
  table : List StoredRec
  /-- The error value of the cache query, when it fails. -/
  queryError : Option String
  /-- The `resume_link` of the user's profile row, if any. -/
  profileResumeLink : Option String
  /-- The API call made by `generateRecommendations`: the returned
  recommendations, or a failure (a non-ok response or a thrown error),
  which its own catch converts to the defaults. -/
  apiOutcome : Except String (List RoleRecommendation)

/-- The observable outcome of one service call: the recommendations and
how many generation (API, hence completion-endpoint) calls were made. -/
structure ServiceOutcome where
  result : List RoleRecommendation
  generationCalls : Nat
deriving DecidableEq, Repr

/-- Model of `generateRecommendations`: one API call; any failure is
caught and replaced by the defaults. -/
def generateRecommendations (env : ServiceEnv) : List RoleRecommendation :=
  match env.apiOutcome with
  | .ok recs => recs
  | .error _ => defaultRecommendations

/-- Model of the service `getRecommendations`: the missing-userId guard
returns the defaults; otherwise the cache path, then generation. -/
def getRecommendations (userId : String) (forceRefresh : Bool) (env : ServiceEnv) :
    ServiceOutcome :=
  if userId = "" then ⟨defaultRecommendations, 0⟩
  else if forceRefresh = false ∧ env.queryError = none ∧ queryTop3 env.table userId ≠ [] then
    ⟨(queryTop3 env.table userId).map toRecommendation, 0⟩
  else ⟨generateRecommendations env, 1⟩

/-! ## The upload retry of `components/discovery/resume-upload.tsx`

The storage operations are modelled per attempt round `k` (the code
generates a fresh timestamped path each round).  The function recurses on
itself from inside its own catch after provisioning, so the embedding is
fuelled; exhausting fuel means the recursion was still running after that
many upload attempts. -/

/-- Whether an error message reports the missing-location failure
(`error.message.includes("The resource was not found")`). -/
def hasSubseq (pat : List Char) : List Char → Bool
  | [] => pat.isEmpty
  | c :: rest => pat.isPrefixOf (c :: rest) || hasSubseq pat rest

def notFoundMsg (msg : String) : Bool :=
  hasSubseq ("The resource was not found".data) msg.data

/-- Outcome of one main-file upload attempt. -/
inductive AttemptResult where
  | ok
  | err (msg : String)

/-- Outcomes of the storage and profile calls per retry round. -/
structure UploadEnv where
  /-- The k-th main-file upload attempt. -/
  attempt : Nat → AttemptResult
  /-- The k-th provisioning round (placeholder upload then delete): `none`
  when it succeeds, otherwise the thrown error message. -/
  provision : Nat → Option String
  /-- The signed-url minting after the k-th successful upload. -/
  signed : Nat → Except String String

/-- How one call of `uploadFile` resolves, with the number of main-file
upload attempts that were made. -/
inductive UploadOutcome where
  | ok (url : String) (attempts : Nat)
  | errNull (attempts : Nat)
  | thrown (msg : String) (attempts : Nat)
  | exhausted (attempts : Nat)
deriving DecidableEq, Repr

/-- The retry recursion of `uploadFile`: an upload failure (or a thrown
signed-url failure) whose message reports a missing location provisions
the location and re-enters the whole function; any other failure resolves
to null; a provisioning failure is rethrown. -/
def uploadFileAux (env : UploadEnv) : Nat → Nat → UploadOutcome
  | 0, k => .exhausted k
  | fuel + 1, k =>
    match env.attempt k with
    | .ok =>
      match env.signed k with
      | .ok url => .ok url (k + 1)
      | .error m =>
        if notFoundMsg m then
          match env.provision k with
          | none => uploadFileAux env fuel (k + 1)
          | some pm => .thrown pm (k + 1)
        else .errNull (k + 1)
    | .err m =>
      if notFoundMsg m then
        match env.provision k with
        | none => uploadFileAux env fuel (k + 1)
        | some pm => .thrown pm (k + 1)
      else .errNull (k + 1)

def uploadFile (env : UploadEnv) (fuel : Nat) : UploadOutcome :=
  uploadFileAux env fuel 0

/-! ## File validation of the upload component -/

/-- The properties of a selected browser file the handlers read. -/
structure WebFile where
  name : String
  size : Nat
  mime : String
deriving DecidableEq, Repr

/-- The accepted MIME types (PDF and DOCX). -/
def validTypes : List String :=
  ["application/pdf",
   "application/vnd.openxmlformats-officedocument.wordprocessingml.document"]

/-- What a file-selection handler does with the chosen file. -/
inductive FileSelectionAction where
  | toastTooLarge
  | toastInvalidType
  | startUpload (f : WebFile)
deriving DecidableEq, Repr

/-- The `handleFileChange` validation: the size gate, the type gate, then
state updates and the automatic upload start. -/
def handleFileChange (f : WebFile) : FileSelectionAction :=
  if f.size > 5 * 1024 * 1024 then .toastTooLarge
  else if !(validTypes.contains f.mime) then .toastInvalidType
  else .startUpload f

/-- The drop handler of `ResumeUpload` repeats the same two gates. -/
def handleDrop (f : WebFile) : FileSelectionAction :=
  if f.size > 5 * 1024 * 1024 then .toastTooLarge
  else if !(validTypes.contains f.mime) then .toastInvalidType
  else .startUpload f

/-! ## The OCR text extraction of `lib/resume-extractor.ts` -/

/-- One page of the OCR response. -/
structure OcrPage where
  markdown : String
deriving DecidableEq, Repr

/-- The OCR call outcome: a non-ok response with its error message, or the
page sequence of a successful response. -/
structure OcrEnv where
  response : Except String (List OcrPage)

/-- The page concatenation loop: each page's markdown followed by two
newline characters is appended in order. -/
def combinePages (pages : List String) : String :=
  pages.foldl (fun acc p => acc ++ p ++ "\n\n") ""

/-- Model of `extractResumeText`: the two preconditions, the non-ok
response path, and the page concatenation. -/
def extractResumeText (documentUrl apiKey : String) (env : OcrEnv) :
    Except String String :=
  if documentUrl = "" then .error "Document URL is required"
  else if apiKey = "" then .error "Mistral API key is required"
  else
    match env.response with
    | .error m => .error ("OCR extraction failed: " ++ m)
    | .ok pages => .ok (combinePages (pages.map OcrPage.markdown))

/-! ## Lemmas about the cache query model -/

theorem insertDesc_length (r : StoredRec) (l : List StoredRec) :
    (insertDesc r l).length = l.length + 1 := by
  induction l with
  | nil => rfl
  | cons x xs ih =>
    unfold insertDesc
    split
    · simp
    · simp [ih]

theorem sortByCreatedDesc_length (l : List StoredRec) :
    (sortByCreatedDesc l).length = l.length := by
  induction l with
  | nil => rfl
  | cons x xs ih =>
    show (insertDesc x (sortByCreatedDesc xs)).length = xs.length + 1
    rw [insertDesc_length, ih]

theorem mem_insertDesc {y : StoredRec} (r : StoredRec) (l : List StoredRec)
    (h : y ∈ insertDesc r l) : y = r ∨ y ∈ l := by
  induction l with
  | nil =>
    simp [insertDesc] at h
    exact Or.inl h
  | cons x xs ih =>
    unfold insertDesc at h
    split at h
    · rcases List.mem_cons.1 h with h1 | h2
      · exact Or.inl h1
      · exact Or.inr h2
    · rcases List.mem_cons.1 h with h1 | h2
      · exact Or.inr (h1 ▸ List.mem_cons_self x xs)
      · rcases ih h2 with h3 | h4
        · exact Or.inl h3
        · exact Or.inr (List.mem_cons_of_mem x h4)

theorem pairwise_insertDesc (r : StoredRec) (l : List StoredRec)
    (hl : l.Pairwise (fun a b => b.created_at ≤ a.created_at)) :
    (insertDesc r l).Pairwise (fun a b => b.created_at ≤ a.created_at) := by
  induction l with
  | nil => simp [insertDesc]
  | cons x xs ih =>
    rcases List.pairwise_cons.1 hl with ⟨hx, hxs⟩
    unfold insertDesc
    split
    · refine List.pairwise_cons.2 ⟨?_, hl⟩
      intro y hy
      rcases List.mem_cons.1 hy with rfl | hy2
      · assumption
      · exact Nat.le_trans (hx y hy2) (by assumption)
    · refine List.pairwise_cons.2 ⟨?_, ih hxs⟩
      intro y hy
      rcases mem_insertDesc r xs hy with rfl | hy2
      · exact Nat.le_of_lt (Nat.lt_of_not_le (by assumption))
      · exact hx y hy2

theorem pairwise_sortByCreatedDesc (l : List StoredRec) :
    (sortByCreatedDesc l).Pairwise (fun a b => b.created_at ≤ a.created_at) := by
  induction l with
  | nil => simp [sortByCreatedDesc]
  | cons x xs ih => exact pairwise_insertDesc x (sortByCreatedDesc xs) ih

theorem queryTop3_pairwise (table : List StoredRec) (uid : String) :
    (queryTop3 table uid).Pairwise (fun a b => b.created_at ≤ a.created_at) :=
  (pairwise_sortByCreatedDesc _).sublist (List.take_sublist _ _)

theorem queryTop3_length_le (table : List StoredRec) (uid : String) :
    (queryTop3 table uid).length ≤ 3 := by
  unfold queryTop3
  exact le_trans (List.length_take_le _ _) (le_refl 3)

theorem queryTop3_ne_nil (table : List StoredRec) (uid : String)
    (h : table.filter (fun r => r.user_id = uid) ≠ []) :
    queryTop3 table uid ≠ [] := by
  unfold queryTop3
  have hs : sortByCreatedDesc (table.filter (fun r => r.user_id = uid)) ≠ [] := by
    intro hnil
    have hlen := congrArg List.length hnil
    rw [sortByCreatedDesc_length] at hlen
    exact h (List.eq_nil_of_length_eq_zero hlen)
  cases hsort : sortByCreatedDesc (table.filter (fun r => r.user_id = uid)) with
  | nil => exact absurd hsort hs
  | cons x xs => simp

/-- C1: for a userId with at least one persisted recommendation row and
`forceRefresh = false`, the service returns the cached rows — the rows of
that user, most recent by creation order, at most three, projected onto
the four record fields — and makes zero generation (completion-endpoint)
calls. -/
theorem cache_hit_returns_rows_without_generation (userId : String) (env : ServiceEnv)
    (huid : userId ≠ "") (hq : env.queryError = none)
    (hrows : env.table.filter (fun r => r.user_id = userId) ≠ []) :
    getRecommendations userId false env =
      ⟨(queryTop3 env.table userId).map toRecommendation, 0⟩ ∧
    ((queryTop3 env.table userId).map toRecommendation).length ≤ 3 ∧
    (queryTop3 env.table userId).Pairwise (fun a b => b.created_at ≤ a.created_at) := by
  refine ⟨?_, ?_, queryTop3_pairwise env.table userId⟩
  · unfold getRecommendations
    rw [if_neg huid, if_pos ⟨rfl, hq, queryTop3_ne_nil env.table userId hrows⟩]
  · rw [List.length_map]
    exact queryTop3_length_le env.table userId

/-- A one-row store for the C1 witness. -/
def rowW : StoredRec :=
  { user_id := "user-7", role_title := "UX Researcher",
    description := "Studies users.",
    why_it_fits_professionally := "Strong empathy.",
    why_it_fits_personally := "Curious.",
    created_at := 11 }

def envC1w : ServiceEnv :=
  { table := [rowW], queryError := none, profileResumeLink := none,
    apiOutcome := .error "unreachable" }

/-- Witness for C1 at a concrete one-row store. -/
theorem cache_hit_returns_rows_without_generation_witness :
    ("user-7" : String) ≠ "" ∧ envC1w.queryError = none ∧
    envC1w.table.filter (fun r => r.user_id = "user-7") ≠ [] ∧
    (getRecommendations "user-7" false envC1w =
      ⟨(queryTop3 envC1w.table "user-7").map toRecommendation, 0⟩ ∧
    ((queryTop3 envC1w.table "user-7").map toRecommendation).length ≤ 3 ∧
    (queryTop3 envC1w.table "user-7").Pairwise (fun a b => b.created_at ≤ a.created_at)) :=
  ⟨by decide, rfl, by decide,
    cache_hit_returns_rows_without_generation "user-7" envC1w (by decide) rfl (by decide)⟩

/-! ## C2: the no-signal short circuit tests for an absent discovery
object, not for empty discovery content -/

def rowC8 : StoredRec :=
  { user_id := "someone-else", role_title := "Editor",
    description := "Edits.", why_it_fits_professionally := "Detail.",
    why_it_fits_personally := "Reading.", created_at := 4 }

def envC8 : ServiceEnv :=
  { table := [rowC8], queryError := none, profileResumeLink := none,
    apiOutcome := .error "unreachable" }

/-- C8 counterexample: the client-side service, one of the two cited
entry points, answers a missing userId by substituting the full default
recommendation set and reporting no error to its caller — exactly the
substitution the claim rules out. -/
theorem service_missing_userId_substitutes_defaults :
    getRecommendations "" false envC8 = ⟨defaultRecommendations, 0⟩ ∧
    defaultRecommendations ≠ [] := by
  refine ⟨by rfl, by decide⟩

/-- C8 as amended: the API route does report a missing userId as a 400
precondition error, with no recommendations and no completion call; the
client-side service instead swallows the precondition failure and returns
the default set. -/
theorem missing_userId_route_errors_service_defaults :
    (∀ env : RouteEnv, ∀ r : Option String,
      POST ⟨none, r⟩ env = ⟨.badRequest "Missing userId in request", 0, []⟩) ∧
    (∀ env : RouteEnv, ∀ r : Option String,
      POST ⟨some "", r⟩ env = ⟨.badRequest "Missing userId in request", 0, []⟩) ∧
    (∀ envS : ServiceEnv, ∀ f : Bool,
      getRecommendations "" f envS = ⟨defaultRecommendations, 0⟩) := by
  refine ⟨fun env r => ?_, fun env r => ?_, fun envS f => ?_⟩
  · rfl
  · unfold POST
    rw [if_pos]
    rfl
  · rfl

/-! ## C10: file validation happens before any upload is started -/

/-- C10: a file over the 5 MB limit, or with a MIME type other than PDF or
DOCX, is answered by a validation toast from both selection handlers; no
upload is started with any file, and in this model the storage upload, the
signed-url minting and the profile write occur only inside `uploadFile`,
which only a `startUpload` action invokes. -/
theorem invalid_file_rejected_before_upload (f : WebFile)
    (h : 5 * 1024 * 1024 < f.size ∨ f.mime ∉ validTypes) :
    (handleFileChange f = .toastTooLarge ∨ handleFileChange f = .toastInvalidType) ∧
    (∀ g : WebFile, handleFileChange f ≠ .startUpload g) ∧
    handleDrop f = handleFileChange f := by
  have hcase : handleFileChange f = .toastTooLarge ∨ handleFileChange f = .toastInvalidType := by
    unfold handleFileChange
    rcases h with hsize | hmime
    · rw [if_pos hsize]
      exact Or.inl rfl
    · by_cases hsize : f.size > 5 * 1024 * 1024
      · rw [if_pos hsize]
        exact Or.inl rfl
      · rw [if_neg hsize, if_pos]
        · exact Or.inr rfl
        · simp only [Bool.not_eq_true', ← Bool.not_eq_true]
          intro hc
          exact hmime (List.mem_of_elem_eq_true hc)
  refine ⟨hcase, fun g hg => ?_, by unfold handleDrop handleFileChange; rfl⟩
  rcases hcase with hc | hc <;> rw [hc] at hg <;> exact FileSelectionAction.noConfusion hg

def bigFile : WebFile := ⟨"resume.pdf", 5 * 1024 * 1024 + 1, "application/pdf"⟩

/-- Witness for C10 at a concrete oversized file. -/
theorem invalid_file_rejected_before_upload_witness :
    (5 * 1024 * 1024 < bigFile.size ∨ bigFile.mime ∉ validTypes) ∧
    ((handleFileChange bigFile = .toastTooLarge ∨
        handleFileChange bigFile = .toastInvalidType) ∧
      (∀ g : WebFile, handleFileChange bigFile ≠ .startUpload g) ∧
      handleDrop bigFile = handleFileChange bigFile) :=
  ⟨Or.inl (by decide),
    invalid_file_rejected_before_upload bigFile (Or.inl (by decide))⟩

/-! ## C9: the page concatenation carries a trailing blank-line separator -/

/-- Modelled from the claim: the pages joined in order with one blank-line
separator between adjacent pages and nothing after the last. -/
def joinPagesSpec : List String → String
  | [] => ""
  | [p] => p
  | p :: ps => p ++ "\n\n" ++ joinPagesSpec ps

theorem combinePages_acc (ps : List String) (acc : String) :
    ps.foldl (fun a p => a ++ p ++ "\n\n") acc = acc ++ combinePages ps := by
  induction ps generalizing acc with
  | nil => simp [combinePages]
  | cons p ps ih =>
    show ps.foldl _ (acc ++ p ++ "\n\n") = acc ++ combinePages (p :: ps)
    rw [ih (acc ++ p ++ "\n\n")]
    show acc ++ p ++ "\n\n" ++ combinePages ps = acc ++ List.foldl _ ("" ++ p ++ "\n\n") ps
    rw [ih ("" ++ p ++ "\n\n")]
    simp [String.append_assoc]

theorem combinePages_cons (p : String) (ps : List String) :
    combinePages (p :: ps) = p ++ "\n\n" ++ combinePages ps := by
  show List.foldl _ ("" ++ p ++ "\n\n") ps = _
  rw [combinePages_acc ps ("" ++ p ++ "\n\n")]
  simp [String.append_assoc]

theorem combinePages_eq_joinSpec (ps : List String) (hp : ps ≠ []) :
    combinePages ps = joinPagesSpec ps ++ "\n\n" := by
  induction ps with
  | nil => exact absurd rfl hp
  | cons p qs ih =>
    cases qs with
    | nil => simp [combinePages, joinPagesSpec, String.append_assoc]
    | cons q rs =>
      rw [combinePages_cons, ih (by simp)]
      show p ++ "\n\n" ++ (joinPagesSpec (q :: rs) ++ "\n\n") =
        (p ++ "\n\n" ++ joinPagesSpec (q :: rs)) ++ "\n\n"
      simp [String.append_assoc]

def envC9 : OcrEnv := ⟨.ok [⟨"Built data pipelines."⟩]⟩

/-- C9 counterexample: a successful one-page extraction returns the page
text followed by a trailing blank-line separator, not the bare
concatenation of the pages that the claim describes (which for one page is
the page itself). -/
theorem extract_single_page_has_trailing_separator :
    extractResumeText "https://resume.example/d.pdf" "key-1" envC9 =
      .ok "Built data pipelines.\n\n" ∧
    joinPagesSpec ["Built data pipelines."] = "Built data pipelines." ∧
    ("Built data pipelines.\n\n" : String) ≠ "Built data pipelines." := by
  refine ⟨by rfl, rfl, by decide⟩

/-- C9 as amended: a successful extraction with a nonempty page sequence
returns the pages joined in order, adjacent pages separated by one blank
line, with one further blank-line separator after the final page. -/
theorem extract_concatenates_pages_with_trailing_separator
    (url key : String) (env : OcrEnv) (pages : List OcrPage)
    (hu : url ≠ "") (hk : key ≠ "") (hr : env.response = .ok pages)
    (hp : pages ≠ []) :
    extractResumeText url key env =
      .ok (joinPagesSpec (pages.map OcrPage.markdown) ++ "\n\n") := by
  unfold extractResumeText
  rw [if_neg hu, if_neg hk, hr]
  show Except.ok (combinePages (pages.map OcrPage.markdown)) = _
  rw [combinePages_eq_joinSpec]
  cases pages with
  | nil => exact absurd rfl hp
  | cons a as => simp

def envC9w : OcrEnv := ⟨.ok [⟨"Page one."⟩, ⟨"Page two."⟩]⟩

/-- Witness for the amended C9 at a concrete two-page response. -/
theorem extract_concatenates_pages_with_trailing_separator_witness :
    ("https://resume.example/w.pdf" : String) ≠ "" ∧ ("key-2" : String) ≠ "" ∧
    envC9w.response = .ok [⟨"Page one."⟩, ⟨"Page two."⟩] ∧
    ([(⟨"Page one."⟩ : OcrPage), ⟨"Page two."⟩] : List OcrPage) ≠ [] ∧
    extractResumeText "https://resume.example/w.pdf" "key-2" envC9w =
      .ok (joinPagesSpec ([(⟨"Page one."⟩ : OcrPage), ⟨"Page two."⟩].map OcrPage.markdown) ++ "\n\n") :=
  ⟨by decide, by decide, rfl, by decide,
    extract_concatenates_pages_with_trailing_separator
      "https://resume.example/w.pdf" "key-2" envC9w
      [⟨"Page one."⟩, ⟨"Page two."⟩] (by decide) (by decide) rfl (by decide)⟩

/-! ## C3: the upload retry recurses without bound on persistent
missing-location failures -/

def nfText : String := "The resource was not found"

def envC3 : UploadEnv :=
  { attempt := fun k => if k < 2 then .err nfText else .ok,
    provision := fun _ => none,
    signed := fun _ => .ok "https://signed.example/u" }

/-- C3 counterexample: with two consecutive missing-location failures and
a third attempt that succeeds, `uploadFile` resolves successfully after
three upload attempts — the second consecutive failure is not surfaced as
an error and the upload is retried more than once. -/
theorem second_not_found_failure_retries_again :
    uploadFile envC3 9 = .ok "https://signed.example/u" 3 := by rfl

/-- An environment in which every upload attempt fails with the
missing-location message and provisioning always succeeds. -/
def envAllNF : UploadEnv :=
  { attempt := fun _ => .err nfText,
    provision := fun _ => none,
    signed := fun _ => .ok "https://signed.example/u" }

/-- With one missing-location failure and then success. -/
def envNFOnce : UploadEnv :=
  { attempt := fun k => if k = 0 then .err nfText else .ok,
    provision := fun _ => none,
    signed := fun _ => .ok "https://signed.example/u" }

/-- With a failure whose message does not report a missing location. -/
def envOtherErr : UploadEnv :=
  { attempt := fun _ => .err "Payload too large",
    provision := fun _ => none,
    signed := fun _ => .ok "https://signed.example/u" }

/-- With a missing-location failure whose provisioning round throws. -/
def envProvFail : UploadEnv :=
  { attempt := fun _ => .err nfText,
    provision := fun _ => some "placeholder upload denied",
    signed := fun _ => .ok "https://signed.example/u" }

theorem uploadFileAux_envAllNF (n k : Nat) :
    uploadFileAux envAllNF n k = .exhausted (k + n) := by
  induction n generalizing k with
  | zero => rfl
  | succ n ih =>
    show uploadFileAux envAllNF n (k + 1) = .exhausted (k + (n + 1))
    rw [ih (k + 1)]
    congr 1
    omega

/-- C3 as amended: a missing-location upload failure provisions the
location and re-enters the whole upload; the recursion repeats for every
further missing-location failure whose provisioning succeeds, without any
bound (for every fuel budget the all-failing run is still unresolved after
that many attempts); a single missing-location failure followed by success
resolves with the signed url on the second attempt; a failure with any
other message resolves to null at once; a provisioning failure is
rethrown. -/
theorem upload_retry_recursive_unbounded :
    (∀ n : Nat, uploadFile envAllNF n = .exhausted n) ∧
    uploadFile envNFOnce 9 = .ok "https://signed.example/u" 2 ∧
    uploadFile envOtherErr 9 = .errNull 1 ∧
    uploadFile envProvFail 9 = .thrown "placeholder upload denied" 1 := by
  refine ⟨fun n => ?_, by rfl, by rfl, by rfl⟩
  show uploadFileAux envAllNF n 0 = .exhausted n
  rw [uploadFileAux_envAllNF n 0, Nat.zero_add]

/-! ## C4: when the parse stage fails, and the JavaScript null quirk -/

/-- C6 counterexample: the raw text is a one-element array whose only
record has none of the four contract fields; `parse` succeeds and returns
the record as is instead of rejecting it. -/
theorem parse_accepts_record_without_fields :
    parseRecs "[\x7b\x7d]" = .ok [Json.obj []] ∧
    hasAllRecordFields (Json.obj []) = false :=
  ⟨by rfl, by rfl⟩

/-- C6 as amended: whatever array (or single object) the structural parse
of the repaired text yields is returned unchanged — no record-level check
of the four fields, their presence or their types is performed. -/
theorem parse_returns_records_unvalidated (raw : String) :
    (∀ xs, jsonParse (repairStr raw) = some (.arr xs) → parseRecs raw = .ok xs) ∧
    (∀ fs, jsonParse (repairStr raw) = some (.obj fs) → parseRecs raw = .ok [.obj fs]) := by
  constructor
  · intro xs h
    simp [parseRecs, h]
  · intro fs h
    simp [parseRecs, h]

/-- Witness for the amended C6: a record with a single boolean field is
passed through untouched. -/
theorem parse_returns_records_unvalidated_witness :
    jsonParse (repairStr "[\x7b\"a\":true\x7d]") =
      some (.arr [.obj [("a", .bool true)]]) ∧
    parseRecs "[\x7b\"a\":true\x7d]" = .ok [.obj [("a", .bool true)]] :=
  ⟨by rfl,
    (parse_returns_records_unvalidated "[\x7b\"a\":true\x7d]").1
      [.obj [("a", .bool true)]] (by rfl)⟩

/-! ## C7: insert outcomes do not influence the run, but a null record
crashes the insert loop -/

/-- Modelled from the claim: walk from an opening bracket with a
conservative depth count over both bracket kinds until the match closes,
accumulating the span. -/
def balancedFrom (acc : List Char) (depth : Nat) : List Char → Option (List Char)
  | [] => none
  | c :: rest =>
    if c = '[' || c = '\x7b' then balancedFrom (c :: acc) (depth + 1) rest
    else if c = ']' || c = '\x7d' then
      if depth = 1 then some ((c :: acc).reverse)
      else balancedFrom (c :: acc) (depth - 1) rest
    else balancedFrom (c :: acc) depth rest

/-- Modelled from the claim: the first syntactically balanced
array-of-objects span — starting at the first left bracket eventually
followed by an opening brace — with everything outside it discarded. -/
def specBalancedSpan : List Char → Option (List Char)
  | [] => none
  | c :: rest =>
    if c = '[' && rest.contains '\x7b' then balancedFrom [c] 1 rest
    else specBalancedSpan rest

def c5input : String := "[\x7b\"a\":1\x7d] x [\x7b\"b\":2\x7d]"

/-- C5 counterexample: on input holding two balanced array-of-objects
spans with prose between them, the first balanced span is the first array
alone, but the repair step keeps the whole input — the greedy regex runs
from the first opening to the last close — so nothing outside the first
balanced span is discarded and the subsequent structural parse fails. -/
theorem regex_span_not_first_balanced_span :
    specBalancedSpan c5input.data = some ("[\x7b\"a\":1\x7d]".data) ∧
    repairStr c5input = c5input ∧
    c5input ≠ "[\x7b\"a\":1\x7d]" ∧
    parseRecs c5input = .error c5input :=
  ⟨by rfl, by rfl, by decide, by rfl⟩

theorem wsThenClose_spec (r : List Char) (k : Nat) (h : wsThenClose r = some k) :
    ∃ w r2, r = w ++ ']' :: r2 ∧ k = w.length + 1 ∧ ∀ c ∈ w, isWsChar c = true := by
  induction r generalizing k with
  | nil => simp [wsThenClose] at h
  | cons c rest ih =>
    unfold wsThenClose at h
    by_cases hc : c = ']'
    · rw [if_pos hc] at h
      obtain rfl : (1 : Nat) = k := Option.some.inj h
      exact ⟨[], rest, by simp [hc], rfl, by simp⟩
    · rw [if_neg hc] at h
      by_cases hw : isWsChar c
      · rw [if_pos hw] at h
        obtain ⟨k2, hk2, hks⟩ := Option.map_eq_some'.mp h
        obtain ⟨w, r2, hr, hk, hws⟩ := ih k2 hk2
        refine ⟨c :: w, r2, by simp [hr], by simp; omega, ?_⟩
        intro x hx
        rcases List.mem_cons.1 hx with rfl | hx2
        · exact hw
        · exact hws x hx2
      · rw [if_neg hw] at h
        exact absurd h (by simp)

theorem wsThenBrace_spec (r : List Char) (b : Nat) (h : wsThenBrace r = some b) :
    ∃ w r2, r = w ++ '\x7b' :: r2 ∧ b = w.length + 1 ∧ ∀ c ∈ w, isWsChar c = true := by
  induction r generalizing b with
  | nil => simp [wsThenBrace] at h
  | cons c rest ih =>
    unfold wsThenBrace at h
    by_cases hc : c = '\x7b'
    · rw [if_pos hc] at h
      obtain rfl : (1 : Nat) = b := Option.some.inj h
      exact ⟨[], rest, by simp [hc], rfl, by simp⟩
    · rw [if_neg hc] at h
      by_cases hw : isWsChar c
      · rw [if_pos hw] at h
        obtain ⟨b2, hb2, hbs⟩ := Option.map_eq_some'.mp h
        obtain ⟨w, r2, hr, hb, hws⟩ := ih b2 hb2
        refine ⟨c :: w, r2, by simp [hr], by simp; omega, ?_⟩
        intro x hx
        rcases List.mem_cons.1 hx with rfl | hx2
        · exact hw
        · exact hws x hx2
      · rw [if_neg hw] at h
        exact absurd h (by simp)

theorem lastCloseEnd_none (t : List Char) (h : lastCloseEnd t = none) :
    hasClose t = false := by
  induction t with
  | nil => rfl
  | cons c rest ih =>
    unfold lastCloseEnd at h
    cases he : lastCloseEnd rest with
    | some e =>
      rw [he] at h
      exact absurd h (by simp)
    | none =>
      rw [he] at h
      unfold hasClose
      rw [ih he, Bool.or_false]
      by_cases hc : c = '\x7d'
      · rw [if_pos hc] at h
        rw [Option.map_eq_none'] at h
        simp [hc, h]
      · simp [hc]

theorem hasClose_append (a b : List Char) (h : hasClose (a ++ b) = false) :
    hasClose b = false := by
  induction a with
  | nil => exact h
  | cons x xs ih =>
    rw [List.cons_append] at h
    unfold hasClose at h
    rw [Bool.or_eq_false_iff] at h
    exact ih h.2

theorem lastCloseEnd_spec (t : List Char) (e : Nat) (h : lastCloseEnd t = some e) :
    ∃ u w post, t = (u ++ '\x7d' :: (w ++ [']'])) ++ post ∧
      e = u.length + w.length + 2 ∧ (∀ c ∈ w, isWsChar c = true) ∧
      hasClose post = false := by
  induction t generalizing e with
  | nil => simp [lastCloseEnd] at h
  | cons c rest ih =>
    unfold lastCloseEnd at h
    cases he : lastCloseEnd rest with
    | some e2 =>
      rw [he] at h
      obtain rfl : e2 + 1 = e := Option.some.inj h
      obtain ⟨u, w, post, ht, hee, hws, hpost⟩ := ih e2 he
      refine ⟨c :: u, w, post, by simp [ht], by simp; omega, hws, hpost⟩
    | none =>
      rw [he] at h
      by_cases hc : c = '\x7d'
      · rw [if_pos hc] at h
        obtain ⟨k, hk, hke⟩ := Option.map_eq_some'.mp h
        obtain ⟨w, r2, hr, hkk, hws⟩ := wsThenClose_spec rest k hk
        refine ⟨[], w, r2, by simp [hc, hr], by simp only [List.length_nil]; omega, hws, ?_⟩
        have h0 := lastCloseEnd_none rest he
        rw [hr] at h0
        refine hasClose_append (w ++ [']']) r2 ?_
        rw [List.append_assoc, List.singleton_append]
        exact h0
      · rw [if_neg hc] at h
        exact absurd h (by simp)

theorem matchLenAt_spec (d : List Char) (n : Nat) (h : matchLenAt d = some n) :
    ∃ w u w2 post,
      d = ('[' :: (w ++ '\x7b' :: (u ++ '\x7d' :: (w2 ++ [']'])))) ++ post ∧
      n = w.length + u.length + w2.length + 4 ∧
      (∀ c ∈ w, isWsChar c = true) ∧ (∀ c ∈ w2, isWsChar c = true) ∧
      hasClose post = false := by
  cases d with
  | nil => simp [matchLenAt] at h
  | cons c rest =>
    simp only [matchLenAt] at h
    by_cases hc : c = '['
    · rw [if_pos hc] at h
      cases hb : wsThenBrace rest with
      | none =>
        simp only [hb] at h
        exact absurd h (by simp)
      | some b =>
        simp only [hb] at h
        cases hee : lastCloseEnd (rest.drop b) with
        | none =>
          simp only [hee] at h
          exact absurd h (by simp)
        | some e =>
          simp only [hee] at h
          obtain rfl : 1 + b + e = n := Option.some.inj h
          obtain ⟨w, rest2, hrest, hb2, hwsw⟩ := wsThenBrace_spec rest b hb
          have hdrop : rest.drop b = rest2 := by
            rw [hrest, hb2]
            rw [show w ++ '\x7b' :: rest2 = (w ++ ['\x7b']) ++ rest2 by simp]
            rw [show w.length + 1 = (w ++ ['\x7b']).length by simp]
            exact List.drop_left _ _
          rw [hdrop] at hee
          obtain ⟨u, w2, post, ht2, he2, hws2, hpost⟩ := lastCloseEnd_spec rest2 e hee
          refine ⟨w, u, w2, post, ?_, by omega, hwsw, hws2, hpost⟩
          rw [hc, hrest, ht2]
          simp [List.append_assoc]
    · rw [if_neg hc] at h
      exact absurd h (by simp)

theorem findArrayMatch_spec (l m : List Char) (h : findArrayMatch l = some m) :
    ∃ i n, matchLenAt (l.drop i) = some n ∧ m = (l.drop i).take n ∧
      (∀ j < i, matchLenAt (l.drop j) = none) := by
  induction l with
  | nil => simp [findArrayMatch] at h
  | cons c rest ih =>
    unfold findArrayMatch at h
    cases hm : matchLenAt (c :: rest) with
    | some n =>
      rw [hm] at h
      obtain rfl : (c :: rest).take n = m := Option.some.inj h
      exact ⟨0, n, by simpa using hm, by simp, by intro j hj; omega⟩
    | none =>
      rw [hm] at h
      obtain ⟨i, n, h1, h2, h3⟩ := ih h
      refine ⟨i + 1, n, by simpa using h1, by simpa using h2, ?_⟩
      intro j hj
      cases j with
      | zero => simpa using hm
      | succ j2 =>
        have := h3 j2 (by omega)
        simpa using this

/-- C5 as amended: when the repair step keeps a span, that span is the
greedy regex match: it is a contiguous piece of the cleaned text starting
at the first position where a left bracket is followed, through whitespace
only, by an opening brace (no earlier position admits a match), and it
ends at the last close — a closing brace followed, through whitespace
only, by a right bracket — in the whole text, so that no close pattern
remains after it; the first balanced span's extent plays no role, and all
text outside the kept span is discarded. -/
theorem repair_selects_greedy_span (s m : List Char)
    (h : findArrayMatch (stripFences (jsTrim s)) = some m) :
    repairChars s = m ∧
    ∃ pre post, stripFences (jsTrim s) = pre ++ m ++ post ∧
      (∃ w rest, m = '[' :: (w ++ '\x7b' :: rest) ∧ ∀ c ∈ w, isWsChar c = true) ∧
      (∃ u w2, m = u ++ '\x7d' :: (w2 ++ [']']) ∧ ∀ c ∈ w2, isWsChar c = true) ∧
      hasClose post = false ∧
      (∀ j < pre.length, matchLenAt ((stripFences (jsTrim s)).drop j) = none) := by
  have hrep : repairChars s = m := by
    simp only [repairChars, h]
  obtain ⟨i, n, h1, h2, h3⟩ := findArrayMatch_spec _ m h
  obtain ⟨w, u, w2, post, hd, hn, hws, hws2, hpost⟩ := matchLenAt_spec _ n h1
  have hspanlen : ('[' :: (w ++ '\x7b' :: (u ++ '\x7d' :: (w2 ++ [']'])))).length = n := by
    simp
    omega
  have hm_span : m = '[' :: (w ++ '\x7b' :: (u ++ '\x7d' :: (w2 ++ [']']))) := by
    rw [h2, hd, ← hspanlen, List.take_left]
  refine ⟨hrep, (stripFences (jsTrim s)).take i, post, ?_, ?_, ?_, hpost, ?_⟩
  · conv_lhs => rw [← List.take_append_drop i (stripFences (jsTrim s))]
    rw [hd, hm_span]
    simp [List.append_assoc]
  · exact ⟨w, u ++ '\x7d' :: (w2 ++ [']']), hm_span, hws⟩
  · refine ⟨'[' :: (w ++ '\x7b' :: u), w2, ?_, hws2⟩
    rw [hm_span]
    simp [List.append_assoc]
  · intro j hj
    refine h3 j ?_
    rw [List.length_take] at hj
    omega

def c5winput : String := "noise [ \x7bk\x7d ] tail"

/-- Witness for the amended C5 at a concrete input with prose on both
sides of the span. -/
theorem repair_selects_greedy_span_witness :
    findArrayMatch (stripFences (jsTrim c5winput.data)) = some ("[ \x7bk\x7d ]".data) ∧
    (repairChars c5winput.data = ("[ \x7bk\x7d ]".data) ∧
      ∃ pre post, stripFences (jsTrim c5winput.data) = pre ++ ("[ \x7bk\x7d ]".data) ++ post ∧
        (∃ w rest, ("[ \x7bk\x7d ]".data) = '[' :: (w ++ '\x7b' :: rest) ∧
          ∀ c ∈ w, isWsChar c = true) ∧
        (∃ u w2, ("[ \x7bk\x7d ]".data) = u ++ '\x7d' :: (w2 ++ [']']) ∧
          ∀ c ∈ w2, isWsChar c = true) ∧
        hasClose post = false ∧
        (∀ j < pre.length, matchLenAt ((stripFences (jsTrim c5winput.data)).drop j) = none)) :=
  ⟨by rfl, repair_selects_greedy_span c5winput.data ("[ \x7bk\x7d ]".data) (by rfl)⟩

end CareerManager
